import Mathlib

/-!
# Verification of the contact-sheet compositor

A shallow embedding of `scripts/make_contact_sheet.py`: grid-string parsing,
frame discovery, even sub-sampling of frames into a grid, the grid-layout
arithmetic of the Pillow composition path, and label formatting.

Modelling conventions:
* Python strings are `List Char`; Python real-valued arithmetic (`/` on
  numbers, `round`, the `:.2f` format) is modelled exactly over `ℚ`;
  Python `round` is round-half-to-even.
* `sorted` is modelled by `List.insertionSort` over the lexicographic
  byte order on filenames (Python compares strings by code point).
* The filesystem is a directory-exists flag plus a directory listing;
  a run's observable effects are its exit code, its diagnostic and the
  list of files it writes.
-/

namespace ContactSheet

/-- Python `round` on a real value, modelled on `ℚ`: round to the nearest
integer, ties to the even integer. -/
def pyRound (q : ℚ) : ℤ :=
  if q - ⌊q⌋ < 1/2 then ⌊q⌋
  else if 1/2 < q - ⌊q⌋ then ⌊q⌋ + 1
  else if ⌊q⌋ % 2 = 0 then ⌊q⌋ else ⌊q⌋ + 1

/-- Python `int()` truncation of a real value toward zero, modelled on `ℚ`. -/
def pyTrunc (q : ℚ) : ℤ :=
  if 0 ≤ q then ⌊q⌋ else -⌊-q⌋

/-- Python `max` over a list of integers (the `0` default is never reached
by the compositor, which guards against an empty frame list before taking
any maximum). -/
def pyMax (l : List ℤ) : ℤ :=
  match l with
  | [] => 0
  | x :: xs => xs.foldl max x

theorem pyRound_intCast (z : ℤ) : pyRound (z : ℚ) = z := by
  unfold pyRound
  norm_num

theorem pyRound_le (q : ℚ) : (pyRound q : ℚ) ≤ q + 1/2 := by
  have h1 : (⌊q⌋ : ℚ) ≤ q := Int.floor_le q
  unfold pyRound
  split
  · next h => linarith
  · next h =>
    push_neg at h
    split
    · next h' => push_cast; linarith
    · next h' =>
      push_neg at h'
      split
      · linarith
      · push_cast; linarith

theorem le_pyRound (q : ℚ) : q - 1/2 ≤ (pyRound q : ℚ) := by
  have h2 : q < ⌊q⌋ + 1 := Int.lt_floor_add_one q
  unfold pyRound
  split
  · next h => linarith
  · next h =>
    push_neg at h
    split
    · next h' => push_cast; linarith
    · next h' =>
      push_neg at h'
      split
      · linarith
      · push_cast; linarith

theorem pyRound_mono {a b : ℚ} (h : a ≤ b) : pyRound a ≤ pyRound b := by
  by_contra hlt
  push_neg at hlt
  have hZ : (pyRound b : ℚ) + 1 ≤ (pyRound a : ℚ) := by
    exact_mod_cast Int.add_one_le_iff.mpr hlt
  have h1 := pyRound_le a
  have h2 := le_pyRound b
  have hba : b ≤ a := by linarith
  have hab : a = b := le_antisymm h hba
  rw [hab] at hlt
  exact lt_irrefl _ hlt

/-- Frame sub-sampling, from `main` (lines 97–105 of
`make_contact_sheet.py`):

    total = cols * rows
    if len(frames) < total:
        indices = list(range(len(frames)))
    else:
        step = (len(frames) - 1) / (total - 1) if total > 1 else 1
        indices = [int(round(i * step)) for i in range(total)]
-/
def selectIndices (n cols rows : ℕ) : List ℤ :=
  let total := cols * rows
  if n < total then (List.range n).map (fun i : ℕ => (i : ℤ))
  else
    let step : ℚ := if 1 < total then ((n : ℚ) - 1) / ((total : ℚ) - 1) else 1
    (List.range total).map (fun i : ℕ => pyRound ((i : ℚ) * step))

/-- Lexicographic comparison of Python strings (code-point order),
as used by `sorted` on filenames. -/
def charListLe : List Char → List Char → Bool
  | [], _ => true
  | _ :: _, [] => false
  | a :: as, b :: bs =>
    if a < b then true
    else if b < a then false
    else charListLe as bs

/-- A discovered frame file: its filename and its pixel dimensions. -/
structure Frame where
  name : List Char
  width : ℤ
  height : ℤ
deriving DecidableEq

def defaultFrame : Frame := ⟨[], 0, 0⟩

/-- Filename order on frames, the order `sorted(image_dir.glob("*.png"))`
sorts by (flat directory, so path order is filename order). -/
def nameLe (a b : Frame) : Prop := charListLe a.name b.name = true

instance nameLe.decRel : DecidableRel nameLe :=
  fun _ _ => inferInstanceAs (Decidable (_ = true))

/-- The `*.png` glob of frame discovery (line 93), as a filename predicate:
`pathlib.Path.glob` matches by `fnmatch`, so `*.png` is exactly the names
ending in `.png`. -/
def pngGlob (name : List Char) : Bool := ".png".data.isSuffixOf name

/-- Frame discovery, from line 93: `frames = sorted(image_dir.glob("*.png"))`. -/
def discoverFrames (listing : List Frame) : List Frame :=
  List.insertionSort nameLe (listing.filter (fun f => pngGlob f.name))

/-- Python `str.split` with a one-character separator, as used by
`grid.lower().split("x")`. -/
def splitOnChar (sep : Char) : List Char → List (List Char)
  | [] => [[]]
  | c :: cs =>
    if c = sep then [] :: splitOnChar sep cs
    else
      match splitOnChar sep cs with
      | [] => [[c]]
      | r :: rs => (c :: r) :: rs

/-- Value of a nonempty all-digit string, the core of Python `int()`. -/
def digitsVal? (cs : List Char) : Option ℕ :=
  if cs.isEmpty then none
  else if cs.all Char.isDigit then
    some (cs.foldl (fun a c => 10 * a + (c.toNat - 48)) 0)
  else none

/-- Python `int()` on an ASCII decimal string: optional surrounding
whitespace, an optional sign, then digits; anything else raises
`ValueError`, modelled as `none`. -/
def pyInt? (s : List Char) : Option ℤ :=
  let t := ((s.dropWhile Char.isWhitespace).reverse.dropWhile Char.isWhitespace).reverse
  match t with
  | '+' :: rest => (digitsVal? rest).map (fun v => (v : ℤ))
  | '-' :: rest => (digitsVal? rest).map (fun v => -(v : ℤ))
  | _ => (digitsVal? t).map (fun v => (v : ℤ))

def gridFormatMsg : List Char := "Grid must be in COLSxROWS format, e.g., 4x4.".data

def gridPositiveMsg : List Char := "Grid dimensions must be positive.".data

/-- Grid-shape parsing, from `parse_grid` (lines 61–70):

    cols_str, rows_str = grid.lower().split("x")
    cols = int(cols_str); rows = int(rows_str)   # ValueError -> format message
    if cols <= 0 or rows <= 0: raise ValueError("Grid dimensions must be positive.")
-/
def parseGrid (grid : List Char) : Except (List Char) (ℤ × ℤ) :=
  match splitOnChar 'x' (grid.map Char.toLower) with
  | [colsStr, rowsStr] =>
    match pyInt? colsStr, pyInt? rowsStr with
    | some cols, some rows =>
      if cols ≤ 0 ∨ rows ≤ 0 then Except.error gridPositiveMsg
      else Except.ok (cols, rows)
    | _, _ => Except.error gridFormatMsg
  | _ => Except.error gridFormatMsg

/-- The command-line arguments of the compositor that the embedded part
of `main` consumes. -/
structure Args where
  grid : List Char
  maxWidth : ℤ
  labelSize : ℤ
  fps : Option ℤ
  output : Option (List Char)
  sceneName : Option (List Char)
deriving DecidableEq

/-- Output filename resolution, from lines 107–115. -/
def outputFilename (a : Args) : List Char :=
  match a.output with
  | some o => o
  | none =>
    match a.sceneName with
    | some s => s ++ "_sheet.png".data
    | none => "contact_sheet.png".data

def gridLineWidth : ℤ := 1

/-- Label band height, from line 146: `label_height = args.label_size + 8`. -/
def labelHeight (labelSize : ℤ) : ℤ := labelSize + 8

/-- Horizontal pixel position of a grid column, from line 172:
`cell_x = col * cell_w + (col + 1) * grid_line_width`. -/
def cellX (col cw : ℤ) : ℤ := col * cw + (col + 1) * gridLineWidth

/-- Vertical pixel position of a grid row, from line 173:
`cell_y = row * (cell_h + label_height) + (row + 1) * grid_line_width`. -/
def cellY (row ch lh : ℤ) : ℤ := row * (ch + lh) + (row + 1) * gridLineWidth

/-- Height of a frame proportionally rescaled to the cell width, from
lines 138–143: `scale = cell_w / im.width`;
`new_h = max(1, int(im.height * scale))`. -/
def resizedH (cw : ℤ) (f : Frame) : ℤ :=
  max 1 (pyTrunc ((f.height : ℚ) * ((cw : ℚ) / (f.width : ℚ))))

/-- Python `f"{x:.2f}"` on a real value, modelled on `ℚ`: the value times
100 rounded half-to-even, rendered with two fractional digits. -/
def formatTwoDec (q : ℚ) : List Char :=
  let m := pyRound (q * 100)
  let a := m.natAbs
  let frac :=
    if a % 100 < 10 then '0' :: Nat.toDigits 10 (a % 100)
    else Nat.toDigits 10 (a % 100)
  (if m < 0 then ['-'] else []) ++ Nat.toDigits 10 (a / 100) ++ '.' :: frac

/-- Per-cell label text, from lines 180–192: the frame's filename, and when
a frame rate was supplied (Python truthiness: `if args.fps:`), the elapsed
time `frame_idx / args.fps` appended as ` ({time:.2f}s)`. -/
def labelText (frameName : List Char) (fps : Option ℤ) (frameIdx : ℤ) : List Char :=
  match fps with
  | none => frameName
  | some f =>
    if f = 0 then frameName
    else frameName ++ " (".data ++ formatTwoDec ((frameIdx : ℚ) / (f : ℚ)) ++ "s)".data

/-- The layout geometry and labels of a composed sheet: everything the
Pillow path computes before painting pixels. -/
structure Layout where
  indices : List ℤ
  cellW : ℤ
  cellH : ℤ
  sheetW : ℤ
  sheetH : ℤ
  positions : List (ℤ × ℤ)
  labels : List (List Char)
deriving DecidableEq

/-- The Pillow composition path of `main` (lines 97–105 and 136–192):
frame selection, uniform cell width `min(max_width, widest selected)`,
rescaled heights, sheet dimensions, row-major cell positions and labels. -/
def mkLayout (cols rows : ℕ) (maxW labelSize : ℤ) (fps : Option ℤ)
    (frames : List Frame) : Layout :=
  let indices := selectIndices frames.length cols rows
  let selected := indices.map (fun i => frames.getD i.toNat defaultFrame)
  let cw := min maxW (pyMax (selected.map Frame.width))
  let ch := pyMax (selected.map (resizedH cw))
  let lh := labelHeight labelSize
  { indices := indices
    cellW := cw
    cellH := ch
    sheetW := (cols : ℤ) * cw + ((cols : ℤ) + 1) * gridLineWidth
    sheetH := (rows : ℤ) * (ch + lh) + ((rows : ℤ) + 1) * gridLineWidth
    positions := (List.range selected.length).map
      (fun i => (cellX ((i % cols : ℕ) : ℤ) cw, cellY ((i / cols : ℕ) : ℤ) ch lh))
    labels := (List.range selected.length).map
      (fun i => labelText (selected.getD i defaultFrame).name fps (indices.getD i 0)) }

def dirMissingMsg : List Char := "Image directory not found".data

def noFramesMsg : List Char := "No PNG frames found".data

/-- The observable outcome of one compositor run: exit code, diagnostic,
the computed layout (on success), and the files written. -/
structure RunResult where
  exitCode : ℤ
  diagnostic : List Char
  layout? : Option Layout
  writes : List (List Char)
deriving DecidableEq

/-- The `main` pipeline (lines 81–206) on the Pillow path, over an abstract
filesystem (a directory-exists flag and the directory's listing): grid
parsing, then the directory check, then frame discovery and the empty
check, then layout computation and the single terminal write of the sheet. -/
def mainRun (a : Args) (dirExists : Bool) (listing : List Frame) : RunResult :=
  match parseGrid a.grid with
  | Except.error e => ⟨1, e, none, []⟩
  | Except.ok (cols, rows) =>
    if dirExists then
      let frames := discoverFrames listing
      if frames.isEmpty then ⟨1, noFramesMsg, none, []⟩
      else
        ⟨0, [], some (mkLayout cols.toNat rows.toNat a.maxWidth a.labelSize a.fps frames),
          [outputFilename a]⟩
    else ⟨1, dirMissingMsg, none, []⟩

/-! ## Helper lemmas -/

theorem pyRound_zero : pyRound 0 = 0 := by
  simpa using pyRound_intCast 0

theorem charListLe_total : ∀ x y : List Char, charListLe x y = true ∨ charListLe y x = true
  | [], _ => Or.inl rfl
  | _ :: _, [] => Or.inr rfl
  | a :: as, b :: bs => by
    rcases lt_trichotomy a b with h | h | h
    · left; simp [charListLe, h]
    · subst h
      rcases charListLe_total as bs with ih | ih
      · left; simp [charListLe, ih]
      · right; simp [charListLe, ih]
    · right; simp [charListLe, h]

theorem charListLe_trans :
    ∀ x y z : List Char, charListLe x y = true → charListLe y z = true →
      charListLe x z = true
  | [], _, _ => fun _ _ => rfl
  | _ :: _, [], _ => fun h _ => by simp [charListLe] at h
  | _ :: _, _ :: _, [] => fun _ h => by simp [charListLe] at h
  | a :: as, b :: bs, c :: cs => fun h1 h2 => by
    by_cases hab : a < b
    · by_cases hbc : b < c
      · simp [charListLe, lt_trans hab hbc]
      · by_cases hcb : c < b
        · simp [charListLe, hbc, hcb] at h2
        · have hbc' : b = c := le_antisymm (not_lt.mp hcb) (not_lt.mp hbc)
          subst hbc'
          simp [charListLe, hab]
    · by_cases hba : b < a
      · simp [charListLe, hab, hba] at h1
      · have hab' : a = b := le_antisymm (not_lt.mp hba) (not_lt.mp hab)
        subst hab'
        have h1' : charListLe as bs = true := by simpa [charListLe] using h1
        by_cases hac : a < c
        · simp [charListLe, hac]
        · by_cases hca : c < a
          · simp [charListLe, hac, hca] at h2
          · have hac' : a = c := le_antisymm (not_lt.mp hca) (not_lt.mp hac)
            subst hac'
            have h2' : charListLe bs cs = true := by simpa [charListLe] using h2
            simpa [charListLe] using charListLe_trans as bs cs h1' h2'

theorem charListLe_antisymm :
    ∀ x y : List Char, charListLe x y = true → charListLe y x = true → x = y
  | [], [] => fun _ _ => rfl
  | [], _ :: _ => fun _ h => by simp [charListLe] at h
  | _ :: _, [] => fun h _ => by simp [charListLe] at h
  | a :: as, b :: bs => fun h1 h2 => by
    rcases lt_trichotomy a b with h | h | h
    · simp [charListLe, h, not_lt_of_gt h] at h2
    · subst h
      have h1' : charListLe as bs = true := by simpa [charListLe] using h1
      have h2' : charListLe bs as = true := by simpa [charListLe] using h2
      rw [charListLe_antisymm as bs h1' h2']
    · simp [charListLe, h, not_lt_of_gt h] at h1

instance nameLe.isTotal : IsTotal Frame nameLe :=
  ⟨fun a b => charListLe_total a.name b.name⟩

instance nameLe.isTrans : IsTrans Frame nameLe :=
  ⟨fun a b c => charListLe_trans a.name b.name c.name⟩

theorem le_foldl_max (l : List ℤ) (a : ℤ) : a ≤ l.foldl max a := by
  induction l generalizing a with
  | nil => simp
  | cons b t ih => exact le_trans (le_max_left a b) (ih (max a b))

theorem mem_le_foldl_max (l : List ℤ) (a x : ℤ) (hx : x ∈ l) : x ≤ l.foldl max a := by
  induction l generalizing a with
  | nil => cases hx
  | cons b t ih =>
    rcases List.mem_cons.mp hx with rfl | hx'
    · exact le_trans (le_max_right a x) (le_foldl_max t (max a x))
    · exact ih (max a b) hx'

theorem foldl_max_mem (l : List ℤ) (a : ℤ) : l.foldl max a = a ∨ l.foldl max a ∈ l := by
  induction l generalizing a with
  | nil => exact Or.inl rfl
  | cons b t ih =>
    have hstep : List.foldl max a (b :: t) = List.foldl max (max a b) t := rfl
    rcases ih (max a b) with h | h
    · rcases le_total b a with hba | hab
      · left; rw [hstep, h, max_eq_left hba]
      · right
        rw [hstep, h, max_eq_right hab]
        exact List.mem_cons_self b t
    · right
      rw [hstep]
      exact List.mem_cons_of_mem b h

theorem pyMax_mem {l : List ℤ} (h : l ≠ []) : pyMax l ∈ l := by
  match l with
  | [] => exact absurd rfl h
  | x :: xs =>
    rcases foldl_max_mem xs x with h1 | h1
    · rw [pyMax, h1]; exact List.mem_cons_self x xs
    · rw [pyMax]; exact List.mem_cons_of_mem x h1

theorem le_pyMax {l : List ℤ} {x : ℤ} (hx : x ∈ l) : x ≤ pyMax l := by
  match l with
  | x' :: xs =>
    rcases List.mem_cons.mp hx with rfl | h1
    · rw [pyMax]; exact le_foldl_max xs x
    · rw [pyMax]; exact mem_le_foldl_max xs x' x h1

theorem sorted_perm_nodup_eq {l₁ l₂ : List Frame} (hp : l₁.Perm l₂)
    (hs₁ : l₁.Pairwise nameLe) (hs₂ : l₂.Pairwise nameLe)
    (hnd : (l₁.map Frame.name).Nodup) : l₁ = l₂ := by
  induction l₁ generalizing l₂ with
  | nil => exact hp.nil_eq
  | cons a t₁ ih =>
    cases l₂ with
    | nil => exact absurd hp.symm.nil_eq (by simp)
    | cons b t₂ =>
      by_cases hab : a = b
      · subst hab
        have ht : t₁.Perm t₂ := hp.cons_inv
        have := ih ht (List.pairwise_cons.mp hs₁).2 (List.pairwise_cons.mp hs₂).2
          (by simpa using (List.nodup_cons.mp (by simpa using hnd)).2)
        rw [this]
      · exfalso
        have hb1 : b ∈ a :: t₁ := hp.symm.subset (List.mem_cons_self b t₂)
        have ha2 : a ∈ b :: t₂ := hp.subset (List.mem_cons_self a t₁)
        have hbt : b ∈ t₁ := by
          rcases List.mem_cons.mp hb1 with h | h
          · exact absurd h.symm hab
          · exact h
        have hat : a ∈ t₂ := by
          rcases List.mem_cons.mp ha2 with h | h
          · exact absurd h hab
          · exact h
        have h1 : nameLe a b := (List.pairwise_cons.mp hs₁).1 b hbt
        have h2 : nameLe b a := (List.pairwise_cons.mp hs₂).1 a hat
        have hname : a.name = b.name := charListLe_antisymm a.name b.name h1 h2
        have hno : a.name ∉ t₁.map Frame.name := (List.nodup_cons.mp (by simpa using hnd)).1
        exact hno (hname ▸ List.mem_map_of_mem Frame.name hbt)

theorem discoverFrames_perm_eq {l₁ l₂ : List Frame} (hp : l₁.Perm l₂)
    (hnd : (l₁.map Frame.name).Nodup) : discoverFrames l₁ = discoverFrames l₂ := by
  unfold discoverFrames
  have hfp : (l₁.filter fun f => pngGlob f.name).Perm (l₂.filter fun f => pngGlob f.name) :=
    hp.filter _
  have hperm :
      (List.insertionSort nameLe (l₁.filter fun f => pngGlob f.name)).Perm
        (List.insertionSort nameLe (l₂.filter fun f => pngGlob f.name)) :=
    (List.perm_insertionSort _ _).trans (hfp.trans (List.perm_insertionSort _ _).symm)
  have hndf : ((l₁.filter fun f => pngGlob f.name).map Frame.name).Nodup :=
    List.Nodup.sublist (List.Sublist.map Frame.name (List.filter_sublist l₁)) hnd
  have hnds :
      ((List.insertionSort nameLe (l₁.filter fun f => pngGlob f.name)).map Frame.name).Nodup :=
    (((List.perm_insertionSort nameLe _).map Frame.name).nodup_iff).mpr hndf
  exact sorted_perm_nodup_eq hperm (List.sorted_insertionSort nameLe _)
    (List.sorted_insertionSort nameLe _) hnds

theorem parseGrid_error_cases {g e : List Char} (h : parseGrid g = Except.error e) :
    e = gridFormatMsg ∨ e = gridPositiveMsg := by
  unfold parseGrid at h
  split at h
  · split at h
    · split at h
      · cases h; exact Or.inr rfl
      · cases h
    · cases h; exact Or.inl rfl
  · cases h; exact Or.inl rfl

theorem map_getD_range (frames : List Frame) :
    (List.range frames.length).map (fun i => frames.getD i defaultFrame) = frames := by
  apply List.ext_getElem
  · simp
  · intro i h1 h2
    simp [List.getD_eq_getElem?_getD, List.getElem?_eq_getElem h2]

/-! ## Claim theorems -/

/-- C1: with `n` discovered frames and grid `(c, r)`, `total = c*r` and
`n ≥ total`: if `total > 1` the selected indices are `round(i * s)` with
`s = (n - 1) / (total - 1)` for `i` in `0..total-1`; if `total = 1` the
selection is `[0]`; in particular 10 frames with grid 2x2 select
`[0, 3, 6, 9]`. -/
theorem selection_formula (n cols rows : ℕ) (h : cols * rows ≤ n) :
    (1 < cols * rows →
      selectIndices n cols rows =
        (List.range (cols * rows)).map
          (fun i : ℕ => pyRound ((i : ℚ) * (((n : ℚ) - 1) / (((cols * rows : ℕ) : ℚ) - 1))))) ∧
    (cols * rows = 1 → selectIndices n cols rows = [0]) ∧
    selectIndices 10 2 2 = [0, 3, 6, 9] := by
  have hnl : ¬ n < cols * rows := Nat.not_lt.mpr h
  refine ⟨?_, ?_, ?_⟩
  · intro h1
    simp only [selectIndices]
    rw [if_neg hnl]
    simp only [if_pos h1]
  · intro h1
    simp only [selectIndices]
    rw [if_neg hnl]
    simp only [h1]
    norm_num [List.range_succ, List.range_zero, pyRound_zero]
  · norm_num [selectIndices, pyRound, List.range_succ]

/-- C1 witness: the theorem applied at the concrete 10-frame, 2x2 case. -/
theorem selection_formula_witness : selectIndices 10 2 2 = [0, 3, 6, 9] :=
  (selection_formula 10 2 2 (by norm_num)).2.2

/-- C2 (amended: grid capacity at least 2; a 1x1 grid selects `[0]` whose
last element is not `n - 1`): for `c*r ≤ n` and `2 ≤ c*r` the selected
index sequence is non-decreasing, starts at `0` and ends at `n - 1`. -/
theorem selection_endpoints (n cols rows : ℕ) (h1 : cols * rows ≤ n)
    (h2 : 2 ≤ cols * rows) :
    (selectIndices n cols rows).Pairwise (· ≤ ·) ∧
    (selectIndices n cols rows).head? = some 0 ∧
    (selectIndices n cols rows).getLast? = some ((n : ℤ) - 1) := by
  have hnl : ¬ n < cols * rows := Nat.not_lt.mpr h1
  have ht1 : 1 < cols * rows := h2
  have hn1 : 1 ≤ n := le_trans (by omega) h1
  have hden : (0 : ℚ) < ((cols * rows : ℕ) : ℚ) - 1 := by
    have : (2 : ℚ) ≤ ((cols * rows : ℕ) : ℚ) := by exact_mod_cast h2
    linarith
  have hnum : (0 : ℚ) ≤ (n : ℚ) - 1 := by
    have : (1 : ℚ) ≤ (n : ℚ) := by exact_mod_cast hn1
    linarith
  have hstep : (0 : ℚ) ≤ ((n : ℚ) - 1) / (((cols * rows : ℕ) : ℚ) - 1) :=
    div_nonneg hnum (le_of_lt hden)
  have hsel : selectIndices n cols rows =
      (List.range (cols * rows)).map
        (fun i : ℕ => pyRound ((i : ℚ) * (((n : ℚ) - 1) / (((cols * rows : ℕ) : ℚ) - 1)))) := by
    simp only [selectIndices]
    rw [if_neg hnl]
    simp only [if_pos ht1]
  have hmono : ∀ i j : ℕ, i ≤ j →
      pyRound ((i : ℚ) * (((n : ℚ) - 1) / (((cols * rows : ℕ) : ℚ) - 1))) ≤
        pyRound ((j : ℚ) * (((n : ℚ) - 1) / (((cols * rows : ℕ) : ℚ) - 1))) := by
    intro i j hij
    apply pyRound_mono
    apply mul_le_mul_of_nonneg_right _ hstep
    exact_mod_cast hij
  obtain ⟨k, hk⟩ : ∃ k, cols * rows = k + 1 := ⟨cols * rows - 1, by omega⟩
  refine ⟨?_, ?_, ?_⟩
  · rw [hsel]
    rw [List.pairwise_map]
    exact (List.pairwise_lt_range (cols * rows)).imp (fun hlt => hmono _ _ (le_of_lt hlt))
  · rw [hsel, hk, List.range_succ_eq_map]
    simp only [List.map_cons, List.head?_cons]
    norm_num [pyRound_zero]
  · rw [hsel, hk, List.range_succ, List.map_append]
    simp only [List.map_cons, List.map_nil, List.getLast?_concat]
    have hkq : ((k + 1 : ℕ) : ℚ) - 1 = (k : ℚ) := by push_cast; ring
    have hk1 : 1 ≤ k := by omega
    have hkne : (k : ℚ) ≠ 0 := Nat.cast_ne_zero.mpr (by omega)
    rw [hkq, mul_comm, div_mul_cancel₀ _ hkne]
    have hc : ((n : ℚ) - 1) = (((n : ℤ) - 1 : ℤ) : ℚ) := by push_cast; ring
    rw [hc, pyRound_intCast]

/-- C2 witness: the theorem applied at 10 frames, grid 2x2. -/
theorem selection_endpoints_witness :
    (selectIndices 10 2 2).Pairwise (· ≤ ·) ∧
    (selectIndices 10 2 2).head? = some 0 ∧
    (selectIndices 10 2 2).getLast? = some ((10 : ℤ) - 1) :=
  selection_endpoints 10 2 2 (by norm_num) (by norm_num)

/-- C2 counterexample: a 1x1 grid on 2 frames satisfies the claim's
hypotheses (`c*r ≤ n`, `n > 1`) but the last selected index is `0`,
not `n - 1 = 1`. -/
theorem selection_endpoints_cex :
    1 * 1 ≤ 2 ∧ 1 < 2 ∧
    (selectIndices 2 1 1).getLast? = some 0 ∧ (0 : ℤ) ≠ (2 : ℤ) - 1 := by
  refine ⟨by norm_num, by norm_num, ?_, by norm_num⟩
  norm_num [selectIndices, List.range_succ, List.range_zero, pyRound_zero]

/-- C3: with fewer frames than grid capacity (`n < c*r`) the selection is
all frames in order: indices `0..n-1`, and mapping them over any frame
list of length `n` returns that list unchanged; e.g. 2 frames under a 4x4
grid select `[0, 1]`. -/
theorem selection_all_frames (n cols rows : ℕ) (h : n < cols * rows) :
    selectIndices n cols rows = (List.range n).map (fun i : ℕ => (i : ℤ)) ∧
    (∀ frames : List Frame, frames.length = n →
      (selectIndices n cols rows).map (fun i => frames.getD i.toNat defaultFrame) = frames) ∧
    selectIndices 2 4 4 = [0, 1] := by
  have hsel : selectIndices n cols rows = (List.range n).map (fun i : ℕ => (i : ℤ)) := by
    simp only [selectIndices]
    rw [if_pos h]
  refine ⟨hsel, ?_, ?_⟩
  · intro frames hlen
    rw [hsel, List.map_map]
    have : ((fun i : ℤ => frames.getD i.toNat defaultFrame) ∘ fun i : ℕ => (i : ℤ)) =
        fun i : ℕ => frames.getD i defaultFrame := by
      funext i
      simp
    rw [this, ← hlen, map_getD_range]
  · norm_num [selectIndices, List.range_succ]

/-- C3 witness: the theorem applied at 2 frames, grid 4x4. -/
theorem selection_all_frames_witness : selectIndices 2 4 4 = [0, 1] :=
  (selection_all_frames 2 4 4 (by norm_num)).2.2

theorem selectIndices_ne_nil (n cols rows : ℕ) (hn : 0 < n) (hc : 0 < cols)
    (hr : 0 < rows) : selectIndices n cols rows ≠ [] := by
  have ht : 0 < cols * rows := Nat.mul_pos hc hr
  simp only [selectIndices]
  split
  · simp only [ne_eq, List.map_eq_nil_iff, List.range_eq_nil]
    omega
  · simp only [ne_eq, List.map_eq_nil_iff, List.range_eq_nil]
    omega

/-- C4: on the Pillow path the sheet's pixel width is exactly
`cols * cell_w + (cols + 1) * grid_line_width`, where `cell_w` is the
minimum of the configured max width and the width of the widest selected
frame (`pyMax` of the selected widths is a member of, and an upper bound
for, the selected widths). -/
theorem sheet_width_exact (cols rows : ℕ) (maxW labelSize : ℤ) (fps : Option ℤ)
    (frames : List Frame) (hne : frames ≠ []) (hc : 0 < cols) (hr : 0 < rows) :
    (mkLayout cols rows maxW labelSize fps frames).sheetW =
      (cols : ℤ) * (mkLayout cols rows maxW labelSize fps frames).cellW +
        ((cols : ℤ) + 1) * gridLineWidth ∧
    (mkLayout cols rows maxW labelSize fps frames).cellW =
      min maxW (pyMax (((selectIndices frames.length cols rows).map
        (fun i => frames.getD i.toNat defaultFrame)).map Frame.width)) ∧
    pyMax (((selectIndices frames.length cols rows).map
        (fun i => frames.getD i.toNat defaultFrame)).map Frame.width) ∈
      ((selectIndices frames.length cols rows).map
        (fun i => frames.getD i.toNat defaultFrame)).map Frame.width ∧
    ∀ w ∈ ((selectIndices frames.length cols rows).map
        (fun i => frames.getD i.toNat defaultFrame)).map Frame.width,
      w ≤ pyMax (((selectIndices frames.length cols rows).map
        (fun i => frames.getD i.toNat defaultFrame)).map Frame.width) := by
  have hn : 0 < frames.length := List.length_pos.mpr hne
  have hnil : ((selectIndices frames.length cols rows).map
      (fun i => frames.getD i.toNat defaultFrame)).map Frame.width ≠ [] := by
    simp only [ne_eq, List.map_eq_nil_iff]
    exact selectIndices_ne_nil frames.length cols rows hn hc hr
  exact ⟨rfl, rfl, pyMax_mem hnil, fun w hw => le_pyMax hw⟩

/-- C4 witness: the theorem applied to a single 100x50 frame under a 2x2
grid with max cell width 320. -/
theorem sheet_width_exact_witness :
    (mkLayout 2 2 320 12 none [⟨"frame_0000.png".data, 100, 50⟩]).sheetW =
      (2 : ℤ) * (mkLayout 2 2 320 12 none [⟨"frame_0000.png".data, 100, 50⟩]).cellW +
        ((2 : ℤ) + 1) * gridLineWidth :=
  (sheet_width_exact 2 2 320 12 none [⟨"frame_0000.png".data, 100, 50⟩]
    (by decide) (by decide) (by decide)).1

/-- C5: placement is strict row-major: the i-th selected frame is pasted at
the pixel position of grid row `i / cols` and grid column `i % cols`, and
that cell is a real cell of the sheet (`i / cols < rows` whenever
`i < cols * rows`, `i % cols < cols`). -/
theorem row_major_placement (cols rows : ℕ) (maxW labelSize : ℤ) (fps : Option ℤ)
    (frames : List Frame) (i : ℕ) (hc : 0 < cols)
    (hi : i < (mkLayout cols rows maxW labelSize fps frames).positions.length) :
    (mkLayout cols rows maxW labelSize fps frames).positions.getD i (0, 0) =
      (cellX ((i % cols : ℕ) : ℤ) (mkLayout cols rows maxW labelSize fps frames).cellW,
       cellY ((i / cols : ℕ) : ℤ) (mkLayout cols rows maxW labelSize fps frames).cellH
         (labelHeight labelSize)) ∧
    (i < cols * rows → i / cols < rows) ∧ i % cols < cols := by
  refine ⟨?_, ?_, Nat.mod_lt i hc⟩
  · simp only [mkLayout] at hi ⊢
    rw [List.getD_eq_getElem _ _ hi]
    simp
  · intro h
    rw [Nat.div_lt_iff_lt_mul hc, Nat.mul_comm rows cols]
    exact h

/-- C5 witness: the theorem applied at index 0 of a one-frame 2x2 layout. -/
theorem row_major_placement_witness :
    (mkLayout 2 2 320 12 none [⟨"frame_0000.png".data, 100, 50⟩]).positions.getD 0 (0, 0) =
      (cellX ((0 % 2 : ℕ) : ℤ) (mkLayout 2 2 320 12 none [⟨"frame_0000.png".data, 100, 50⟩]).cellW,
       cellY ((0 / 2 : ℕ) : ℤ) (mkLayout 2 2 320 12 none [⟨"frame_0000.png".data, 100, 50⟩]).cellH
         (labelHeight 12)) ∧
    (0 < 2 * 2 → 0 / 2 < 2) ∧ 0 % 2 < 2 :=
  row_major_placement 2 2 320 12 none [⟨"frame_0000.png".data, 100, 50⟩] 0 (by decide)
    (by simp [mkLayout, selectIndices])

/-- C6 counterexample: with a supplied frame rate of 0 the code draws no
time label at all (Python truthiness of `args.fps`): the label equals the
bare filename, identical to the no-frame-rate case, instead of containing
a parenthesized elapsed time. -/
theorem label_fps_zero_cex :
    labelText "frame_0005.png".data (some 0) 5 = "frame_0005.png".data ∧
    labelText "frame_0005.png".data none 5 = "frame_0005.png".data := by
  constructor
  · simp [labelText]
  · rfl

/-- C6 (amended: a nonzero supplied frame rate): the label under each cell
is the frame's filename followed by the elapsed time
`original index / frame_rate` formatted to two decimals in parentheses;
frame rate 2 with original index 5 formats as "2.50". -/
theorem label_text_formula (name : List Char) (f idx : ℤ) (hf : f ≠ 0) :
    labelText name (some f) idx =
      name ++ " (".data ++ formatTwoDec ((idx : ℚ) / (f : ℚ)) ++ "s)".data ∧
    formatTwoDec ((5 : ℚ) / (2 : ℚ)) = "2.50".data := by
  constructor
  · simp only [labelText]
    rw [if_neg hf]
  · have h250 : ((5 : ℚ) / 2) * 100 = ((250 : ℤ) : ℚ) := by norm_num
    simp only [formatTwoDec]
    rw [h250, pyRound_intCast]
    decide

/-- C6 witness: the amended theorem applied at frame rate 2 and original
index 5. -/
theorem label_text_formula_witness :
    labelText "frame_0005.png".data (some 2) 5 =
      "frame_0005.png".data ++ " (".data ++
        formatTwoDec (((5 : ℤ) : ℚ) / ((2 : ℤ) : ℚ)) ++ "s)".data ∧
    formatTwoDec ((5 : ℚ) / (2 : ℚ)) = "2.50".data :=
  label_text_formula "frame_0005.png".data 2 5 (by decide)

/-- C7: a malformed grid string is rejected with a diagnostic before any
filesystem work: on a parse error the run's outcome is independent of the
directory flag and listing, exits with code 1, reports the parse
diagnostic (nonempty) and writes nothing; "4", "4x" and "0x4" are all
rejected. -/
theorem grid_parse_first (a : Args) (e : List Char)
    (h : parseGrid a.grid = Except.error e) (d₁ d₂ : Bool) (l₁ l₂ : List Frame) :
    mainRun a d₁ l₁ = mainRun a d₂ l₂ ∧
    (mainRun a d₁ l₁).exitCode = 1 ∧
    (mainRun a d₁ l₁).writes = [] ∧
    (mainRun a d₁ l₁).diagnostic = e ∧ e ≠ [] ∧
    parseGrid "4".data = Except.error gridFormatMsg ∧
    parseGrid "4x".data = Except.error gridFormatMsg ∧
    parseGrid "0x4".data = Except.error gridPositiveMsg := by
  have hm : ∀ (d : Bool) (l : List Frame), mainRun a d l = ⟨1, e, none, []⟩ := by
    intro d l
    unfold mainRun
    rw [h]
  have hne : e ≠ [] := by
    rcases parseGrid_error_cases h with h1 | h1 <;> subst h1 <;> decide
  exact ⟨by rw [hm, hm], by rw [hm], by rw [hm], by rw [hm], hne, rfl, rfl, rfl⟩

/-- C7 witness: the theorem applied to the malformed grid string "4". -/
theorem grid_parse_first_witness :
    mainRun ⟨"4".data, 320, 12, none, none, none⟩ true [⟨"a.png".data, 1, 1⟩] =
      mainRun ⟨"4".data, 320, 12, none, none, none⟩ false [] ∧
    (mainRun ⟨"4".data, 320, 12, none, none, none⟩ true [⟨"a.png".data, 1, 1⟩]).exitCode = 1 ∧
    (mainRun ⟨"4".data, 320, 12, none, none, none⟩ true [⟨"a.png".data, 1, 1⟩]).writes = [] ∧
    (mainRun ⟨"4".data, 320, 12, none, none, none⟩ true
        [⟨"a.png".data, 1, 1⟩]).diagnostic = gridFormatMsg ∧
    gridFormatMsg ≠ [] ∧
    parseGrid "4".data = Except.error gridFormatMsg ∧
    parseGrid "4x".data = Except.error gridFormatMsg ∧
    parseGrid "0x4".data = Except.error gridPositiveMsg :=
  grid_parse_first ⟨"4".data, 320, 12, none, none, none⟩ gridFormatMsg rfl
    true false [⟨"a.png".data, 1, 1⟩] []

/-- C8: a missing input directory or an empty frame discovery makes the run
exit with code 1, a nonempty diagnostic and no writes; and every run is
all-or-nothing: it writes either nothing, or exactly the one output sheet
and exits 0. -/
theorem all_or_nothing (a : Args) (d : Bool) (l : List Frame) :
    ((d = false ∨ discoverFrames l = []) →
      (mainRun a d l).exitCode = 1 ∧ (mainRun a d l).diagnostic ≠ [] ∧
      (mainRun a d l).writes = []) ∧
    ((mainRun a d l).writes = [] ∨
      ((mainRun a d l).writes = [outputFilename a] ∧ (mainRun a d l).exitCode = 0)) := by
  rcases hpg : parseGrid a.grid with e | pr
  · have hm : mainRun a d l = ⟨1, e, none, []⟩ := by unfold mainRun; rw [hpg]
    have hne : e ≠ [] := by
      rcases parseGrid_error_cases hpg with h1 | h1 <;> subst h1 <;> decide
    rw [hm]
    exact ⟨fun _ => ⟨rfl, hne, rfl⟩, Or.inl rfl⟩
  · obtain ⟨cols, rows⟩ := pr
    cases d
    · have hm : mainRun a false l = ⟨1, dirMissingMsg, none, []⟩ := by
        unfold mainRun; rw [hpg]; rfl
      rw [hm]
      exact ⟨fun _ => ⟨rfl, by decide, rfl⟩, Or.inl rfl⟩
    · by_cases hemp : (discoverFrames l).isEmpty = true
      · have hm : mainRun a true l = ⟨1, noFramesMsg, none, []⟩ := by
          unfold mainRun; rw [hpg]; simp [hemp]
        rw [hm]
        exact ⟨fun _ => ⟨rfl, by decide, rfl⟩, Or.inl rfl⟩
      · have hm : mainRun a true l =
            ⟨0, [], some (mkLayout cols.toNat rows.toNat a.maxWidth a.labelSize a.fps
              (discoverFrames l)), [outputFilename a]⟩ := by
          unfold mainRun; rw [hpg]; simp [hemp]
        rw [hm]
        refine ⟨?_, Or.inr ⟨rfl, rfl⟩⟩
        rintro (h | h)
        · exact Bool.noConfusion h
        · rw [h] at hemp
          exact absurd rfl hemp

/-- C8 witness: the theorem applied to a run on a missing directory. -/
theorem all_or_nothing_witness :
    (mainRun ⟨"4x4".data, 320, 12, none, none, none⟩ false []).exitCode = 1 ∧
    (mainRun ⟨"4x4".data, 320, 12, none, none, none⟩ false []).writes = [] := by
  have h := all_or_nothing ⟨"4x4".data, 320, 12, none, none, none⟩ false []
  exact ⟨(h.1 (Or.inl rfl)).1, (h.1 (Or.inl rfl)).2.2⟩

/-- C9: the run's outcome — selected indices, grid geometry, labels, exit
code and writes — is a deterministic function of the argument set and the
set of frame files: any two listings of the same frames (in any discovery
order; filenames are distinct within a directory) give identical results,
because the compositor sorts the discovered names. -/
theorem layout_deterministic (a : Args) (d : Bool) (l₁ l₂ : List Frame)
    (hp : l₁.Perm l₂) (hnd : (l₁.map Frame.name).Nodup) :
    mainRun a d l₁ = mainRun a d l₂ := by
  have hdf := discoverFrames_perm_eq hp hnd
  unfold mainRun
  rw [hdf]

/-- C9 witness: the theorem applied to two discovery orders of the same
two frames. -/
theorem layout_deterministic_witness :
    mainRun ⟨"4x4".data, 320, 12, none, none, none⟩ true
        [⟨"b.png".data, 2, 2⟩, ⟨"a.png".data, 1, 1⟩] =
      mainRun ⟨"4x4".data, 320, 12, none, none, none⟩ true
        [⟨"a.png".data, 1, 1⟩, ⟨"b.png".data, 2, 2⟩] :=
  layout_deterministic ⟨"4x4".data, 320, 12, none, none, none⟩ true
    [⟨"b.png".data, 2, 2⟩, ⟨"a.png".data, 1, 1⟩]
    [⟨"a.png".data, 1, 1⟩, ⟨"b.png".data, 2, 2⟩]
    (List.Perm.swap _ _ []) (by decide)

/-- C10 counterexample: with an explicit `--output sheet.jpg` the resolved
output name does not end in `.png`, so a subsequent run does not discover
the previous output file: discovery over a listing containing it returns
only the `.png` frames. -/
theorem discovery_output_cex :
    outputFilename ⟨"4x4".data, 320, 12, none, some "sheet.jpg".data, none⟩ =
      "sheet.jpg".data ∧
    pngGlob "sheet.jpg".data = false ∧
    discoverFrames [⟨"frame_0000.png".data, 8, 8⟩, ⟨"sheet.jpg".data, 9, 9⟩] =
      [⟨"frame_0000.png".data, 8, 8⟩] :=
  ⟨rfl, by decide, by decide⟩

/-- C10 (amended: discovery excludes nothing and the default output names
end in `.png`, so a later run rediscovers a previous run's output whenever
the resolved output name ends in `.png` — always for the default names;
an explicit output name need not end in `.png` and is then not
rediscovered): every listed file whose name matches `*.png` is discovered,
`<scene>_sheet.png` and `contact_sheet.png` match `*.png`, and a listed
file named like the resolved default output is discovered as a frame. -/
theorem discovery_includes_output :
    (∀ (l : List Frame) (f : Frame), f ∈ l → pngGlob f.name = true →
      f ∈ discoverFrames l) ∧
    (∀ s : List Char, pngGlob (s ++ "_sheet.png".data) = true) ∧
    pngGlob "contact_sheet.png".data = true ∧
    (∀ (a : Args) (l : List Frame) (f : Frame), a.output = none →
      f.name = outputFilename a → f ∈ l → f ∈ discoverFrames l) := by
  have hmem : ∀ (l : List Frame) (f : Frame), f ∈ l → pngGlob f.name = true →
      f ∈ discoverFrames l := by
    intro l f hf hpng
    unfold discoverFrames
    rw [(List.perm_insertionSort nameLe _).mem_iff]
    rw [List.mem_filter]
    exact ⟨hf, hpng⟩
  have hsheet : ∀ s : List Char, pngGlob (s ++ "_sheet.png".data) = true := by
    intro s
    unfold pngGlob
    rw [List.isSuffixOf_iff_suffix]
    have h1 : ".png".data <:+ "_sheet.png".data := by decide
    exact h1.trans (List.suffix_append s _)
  refine ⟨hmem, hsheet, by decide, ?_⟩
  intro a l f hout hname hf
  apply hmem l f hf
  unfold outputFilename at hname
  rw [hout] at hname
  rcases hsc : a.sceneName with _ | s
  · rw [hsc] at hname
    rw [hname]
    decide
  · rw [hsc] at hname
    rw [hname]
    exact hsheet s

/-- C10 witness: a listing containing a previous default-named output sheet
rediscovers it as an input frame. -/
theorem discovery_includes_output_witness :
    (⟨"contact_sheet.png".data, 7, 7⟩ : Frame) ∈
      discoverFrames [⟨"frame_0000.png".data, 8, 8⟩, ⟨"contact_sheet.png".data, 7, 7⟩] :=
  discovery_includes_output.2.2.2 ⟨"4x4".data, 320, 12, none, none, none⟩
    [⟨"frame_0000.png".data, 8, 8⟩, ⟨"contact_sheet.png".data, 7, 7⟩]
    ⟨"contact_sheet.png".data, 7, 7⟩ rfl rfl (by decide)

end ContactSheet
